import Mathlib

/-!
# Verification of the Video-Streamer adaptive frame-encoding core

Shallow embedding of `src/python-version/main.py` (the adaptive
frame-encoding and chunked-delivery engine): the RLE primitive, the
LRU-bounded palette cache (`PaletteManager`), the six candidate encoders,
the selection logic of `ImageChunkHandler._handle_new_frame`, the chunk
split / frame store, and `ImageChunkHandler._handle_get_chunk`.

Modelling conventions:
* a pixel is an (R,G,B) triple of `Nat`s (each < 256 in practice); a pixel
  buffer is the row-major flattened list of pixels, exactly the order of
  `image_data.reshape(-1, 3)` in the source;
* the linear index `y * IMG_WIDTH + x` emitted by the diff encoders equals
  the position of the pixel in the flattened list, because every buffer in
  the program has width exactly `IMG_WIDTH`; the embedding therefore works
  with flat positions;
* Python `OrderedDict`s are modelled as association lists in insertion /
  LRU order (front = oldest / least-recently-used, back = newest);
* all payload strings produced by the program are ASCII, so Python
  `len(str)` (used by the `min` selection) equals the byte length and is
  modelled by `String.length`.
-/

/-- `CHUNK_SIZE_LIMIT` from the source. -/
def CHUNK_SIZE_LIMIT : Nat := 4000

/-- `MAX_PALETTES_TO_KEEP` from the source. -/
def MAX_PALETTES_TO_KEEP : Nat := 500

/-- `MAX_PALETTE_COLORS` from the source. -/
def MAX_PALETTE_COLORS : Nat := 256

/-- `MAX_FRAMES_TO_KEEP` from the source. -/
def MAX_FRAMES_TO_KEEP : Nat := 10

/-- An (R,G,B) color triple. -/
abbrev Color := Nat × Nat × Nat

/-- The sixteen lowercase hexadecimal digit characters, as Python's
`"{:x}"` format uses. -/
def hexDigitChar (n : Nat) : Char :=
  "0123456789abcdef".toList.getD n '0'

/-- Digit list of `n` in base 16, most significant first; the first
argument is structural fuel (`n + 1` is always enough, since a number has
at most `n + 1` hex digits). -/
def hexDigitsCore : Nat → Nat → List Char
  | 0, _ => []
  | fuel + 1, n =>
    if n < 16 then [hexDigitChar n]
    else hexDigitsCore fuel (n / 16) ++ [hexDigitChar (n % 16)]

/-- Python `f"{n:x}"`: lowercase hex, no leading zeros (`0` renders as
`"0"`). -/
def toHex (n : Nat) : String :=
  String.mk (hexDigitsCore (n + 1) n)

/-- Python `f"{n:02x}"`: lowercase hex, zero-padded to (at least) two
digits.  All uses in the program have `n < 256`, so the result is exactly
two digits there. -/
def hex2 (n : Nat) : String :=
  if n < 16 then String.mk ('0' :: hexDigitsCore (n + 1) n)
  else toHex n

/-- The six-hex-digit lowercase rendering of a color,
`f"{p[0]:02x}{p[1]:02x}{p[2]:02x}"` in the source. -/
def colorHex (c : Color) : String :=
  hex2 c.1 ++ hex2 c.2.1 ++ hex2 c.2.2

/-- The standard base64 alphabet. -/
def b64Char (n : Nat) : Char :=
  "ABCDEFGHIJKLMNOPQRSTUVWXYZabcdefghijklmnopqrstuvwxyz0123456789+/".toList.getD n 'A'

/-- Standard base64 of a byte list (`base64.b64encode` in the source).
Frame buffers always have `3 * N` bytes, so the padded branches never fire
for them. -/
def base64Encode : List Nat → String
  | [] => ""
  | [a] =>
    String.mk [b64Char (a / 4), b64Char (a % 4 * 16), '=', '=']
  | [a, b] =>
    String.mk [b64Char (a / 4), b64Char (a % 4 * 16 + b / 16),
      b64Char (b % 16 * 4), '=']
  | a :: b :: c :: rest =>
    String.mk [b64Char (a / 4), b64Char (a % 4 * 16 + b / 16),
      b64Char (b % 16 * 4 + c / 64), b64Char (c % 64)] ++ base64Encode rest

/-- `image_data.tobytes()`: the row-major R,G,B byte stream of a buffer. -/
def imgBytes (img : List Color) : List Nat :=
  img.foldr (fun c acc => c.1 :: c.2.1 :: c.2.2 :: acc) []

section RLE

variable {α : Type} [DecidableEq α]

/-- Inner loop of `ImageChunkHandler._rle_encode`: `prev` is the symbol of
the current run and `count` its length so far. -/
def rleGo (prev : α) (count : Nat) : List α → List (α × Nat)
  | [] => [(prev, count)]
  | v :: rest =>
    if v = prev then rleGo prev (count + 1) rest
    else (prev, count) :: rleGo v 1 rest

/-- `ImageChunkHandler._rle_encode`: consecutive equal symbols become one
(symbol, run-length) pair; the empty stream encodes to `[]`. -/
def rleEncode : List α → List (α × Nat)
  | [] => []
  | x :: xs => rleGo x 1 xs

/-- Decoding of an RLE pair list: each `(a, n)` expands to `n` copies of
`a`, in order. -/
def rleExpand : List (α × Nat) → List α
  | [] => []
  | (a, n) :: rest => List.replicate n a ++ rleExpand rest

end RLE

/-- Strict lexicographic order on colors, the row order `np.unique` sorts
by. -/
def colorLt (a b : Color) : Prop :=
  a.1 < b.1 ∨ (a.1 = b.1 ∧ (a.2.1 < b.2.1 ∨ (a.2.1 = b.2.1 ∧ a.2.2 < b.2.2)))

instance : DecidablePred (fun p : Color × Color => colorLt p.1 p.2) :=
  fun _ => by unfold colorLt; infer_instance

instance (a b : Color) : Decidable (colorLt a b) := by
  unfold colorLt; infer_instance

/-- Insert a color into a sorted duplicate-free color list, keeping it
sorted and duplicate-free. -/
def insertColor (c : Color) : List Color → List Color
  | [] => [c]
  | d :: ds =>
    if c = d then d :: ds
    else if colorLt c d then c :: d :: ds
    else d :: insertColor c ds

/-- `np.unique(image_data.reshape(-1, 3), axis=0)`: the distinct colors of
the buffer in ascending lexicographic order. -/
def uniqueColors (img : List Color) : List Color :=
  img.foldl (fun acc c => insertColor c acc) []

/-- The distinct-color count `num_colors` of a buffer. -/
def numColors (img : List Color) : Nat :=
  (uniqueColors img).length

/-!
## Palette cache (`PaletteManager` in the source)

The `OrderedDict` is an association list `palette_id → colors`, front =
least-recently-used, back = most-recently-used.  The source stores both the
tuple form (`'colors'`, for equality tests) and the list form
(`'colors_list'`, returned to callers) of the same color sequence; the
model keeps the one list.
-/

/-- A palette cache entry: `(palette_id, colors)`. -/
abbrev PaletteEntry := Nat × List Color

/-- The scan `for pid, data in self.palettes.items(): if data['colors'] ==
colors_tuple`, returning the first entry whose colors match. -/
def findEntry (l : List PaletteEntry) (cs : List Color) : Option PaletteEntry :=
  match l with
  | [] => none
  | e :: es => if e.2 = cs then some e else findEntry es cs

/-- First entry with the given key, as `OrderedDict` key lookup. -/
def findKey (l : List PaletteEntry) (k : Nat) : Option PaletteEntry :=
  match l with
  | [] => none
  | e :: es => if e.1 = k then some e else findKey es k

/-- Remove the first entry with the given key. -/
def eraseKey (l : List PaletteEntry) (k : Nat) : List PaletteEntry :=
  match l with
  | [] => []
  | e :: es => if e.1 = k then es else e :: eraseKey es k

/-- `OrderedDict.move_to_end(k)`: the entry keyed `k` moves to the
most-recently-used (back) position.  (On a missing key the source would
raise; the call sites only pass keys found by the scan.) -/
def moveToEnd (l : List PaletteEntry) (k : Nat) : List PaletteEntry :=
  match findKey l k with
  | none => l
  | some e => eraseKey l k ++ [e]

/-- The `PaletteManager` state. -/
structure PaletteManager where
  palettes : List PaletteEntry
  maxSize : Nat
  nextPaletteId : Nat
deriving DecidableEq

/-- The fresh manager `PaletteManager(MAX_PALETTES_TO_KEEP)`. -/
def PaletteManager.init : PaletteManager :=
  { palettes := [], maxSize := MAX_PALETTES_TO_KEEP, nextPaletteId := 0 }

/-- `PaletteManager.get_or_create_palette`: scan for an entry with equal
colors; on a hit move it to most-recently-used and return
`(pid, created := false, colors)`; on a miss insert `(next_id, colors)`
at the most-recently-used end, bump `next_id`, and pop the
least-recently-used entry if the size now exceeds `max_size`. -/
def getOrCreatePalette (m : PaletteManager) (colors : List Color) :
    PaletteManager × Nat × Bool × List Color :=
  match findEntry m.palettes colors with
  | some e => ({ m with palettes := moveToEnd m.palettes e.1 }, e.1, false, e.2)
  | none =>
    let pid := m.nextPaletteId
    let ps := m.palettes ++ [(pid, colors)]
    let ps' := if m.maxSize < ps.length then ps.tail else ps
    ({ m with palettes := ps', nextPaletteId := pid + 1 }, pid, true, colors)

/-!
## The encoder suite
-/

/-- Position of a color in the palette (`color_to_idx` dict lookup in the
source; palettes are duplicate-free, every looked-up pixel color occurs). -/
def idxOf (palette : List Color) (c : Color) : Nat :=
  match palette with
  | [] => 0
  | d :: ds => if d = c then 0 else idxOf ds c + 1

/-- `ImageChunkHandler._create_full_update`: `"F|" +` base64 of the raw
buffer bytes.  Never declines. -/
def createFullUpdate (img : List Color) : String :=
  "F|" ++ base64Encode (imgBytes img)

/-- `ImageChunkHandler._create_full_rle_update`: per-pixel six-hex-digit
colors, RLE-compressed, pairs rendered `colorhex,counthex` joined by
`|`. -/
def createFullRleUpdate (img : List Color) : Option String :=
  let hexColors := img.map colorHex
  let rleData := rleEncode hexColors
  if rleData = [] then none
  else some ("FR|" ++
    String.intercalate "|" (rleData.map fun p => p.1 ++ "," ++ toHex p.2))

/-- The changed pixels of a buffer against the previous one: the flat
index together with the (new, old) color pair, for each position where
they differ.  This is `np.where(np.any(image_data != prev_data, axis=2))`
in flat row-major order. -/
def changedPixels (img prev : List Color) : List (Nat × Color × Color) :=
  ((img.zip prev).enum.filter (fun e => decide (e.2.1 ≠ e.2.2))).map
    (fun e => (e.1, e.2.1, e.2.2))

/-- `ImageChunkHandler._create_diff_update`: declines without a previous
buffer or with no changed pixel; else `linearIndexHex:colorhex` per
changed pixel, joined by `|`. -/
def createDiffUpdate (img : List Color) (prev : Option (List Color)) :
    Option String :=
  match prev with
  | none => none
  | some p =>
    let diffs := changedPixels img p
    if diffs = [] then none
    else some ("D|" ++
      String.intercalate "|" (diffs.map fun e => toHex e.1 ++ ":" ++ colorHex e.2.1))

/-- Index rendering for indexed encodings: one hex digit when the palette
has at most 16 colors, else two zero-padded digits (`hex_format` in the
source). -/
def idxHex (numCols i : Nat) : String :=
  if numCols ≤ 16 then toHex i else hex2 i

/-- The palette color-table field: sent (hex colors comma-joined) when the
palette is new to the server or absent from the client hint, else empty. -/
def palettePayload (palette : List Color) (isNew : Bool) (pid : Nat)
    (clientPids : List Nat) : String :=
  if isNew ∨ pid ∉ clientPids then
    String.intercalate "," (palette.map colorHex)
  else ""

/-- `ImageChunkHandler._create_indexed_update`: declines unless
`1 < num_colors ≤ 256`; else resolves the palette (mutating the cache) and
emits `I|pid|palette|indices`. -/
def createIndexedUpdate (img : List Color) (clientPids : List Nat)
    (m : PaletteManager) : PaletteManager × Option String :=
  let n := numColors img
  if 1 < n ∧ n ≤ MAX_PALETTE_COLORS then
    let r := getOrCreatePalette m (uniqueColors img)
    let pid := r.2.1
    let palette := r.2.2.2
    let palPayload := palettePayload palette r.2.2.1 pid clientPids
    let indices := img.map (idxOf palette)
    (r.1, some ("I|" ++ toString pid ++ "|" ++ palPayload ++ "|" ++
      String.join (indices.map (idxHex n))))
  else (m, none)

/-- `ImageChunkHandler._create_indexed_rle_update`: like `INDEXED` but the
palette-index stream is RLE-compressed, pairs `indexHex,countHex` joined
by `|`. -/
def createIndexedRleUpdate (img : List Color) (clientPids : List Nat)
    (m : PaletteManager) : PaletteManager × Option String :=
  let n := numColors img
  if 1 < n ∧ n ≤ MAX_PALETTE_COLORS then
    let r := getOrCreatePalette m (uniqueColors img)
    let pid := r.2.1
    let palette := r.2.2.2
    let palPayload := palettePayload palette r.2.2.1 pid clientPids
    let indices := img.map (idxOf palette)
    let rleData := rleEncode indices
    (r.1,
      if rleData = [] then none
      else some ("IR|" ++ toString pid ++ "|" ++ palPayload ++ "|" ++
        String.intercalate "|"
          (rleData.map fun p => idxHex n p.1 ++ "," ++ toHex p.2)))
  else (m, none)

/-- `ImageChunkHandler._create_diff_indexed_update`: requires a previous
buffer, the `1 < num_colors ≤ 256` bound, and at least one changed pixel
(all checked before the cache is touched); emits
`DI|pid|palette|idxHex:paletteIndexHex|...`. -/
def createDiffIndexedUpdate (img : List Color) (prev : Option (List Color))
    (clientPids : List Nat) (m : PaletteManager) :
    PaletteManager × Option String :=
  match prev with
  | none => (m, none)
  | some p =>
    let n := numColors img
    if 1 < n ∧ n ≤ MAX_PALETTE_COLORS then
      let diffs := changedPixels img p
      if diffs = [] then (m, none)
      else
        let r := getOrCreatePalette m (uniqueColors img)
        let pid := r.2.1
        let palette := r.2.2.2
        let palPayload := palettePayload palette r.2.2.1 pid clientPids
        (r.1, some ("DI|" ++ toString pid ++ "|" ++ palPayload ++ "|" ++
          String.intercalate "|"
            (diffs.map fun e => toHex e.1 ++ ":" ++ idxHex n (idxOf palette e.2.1))))
    else (m, none)

/-!
## Frame publisher (`ImageChunkHandler._handle_new_frame`)
-/

/-- The six candidate slots, named as the keys of the `candidates` dict in
the source.  `FULL` always produces a string; the others may decline. -/
structure Candidates where
  full : String
  diff : Option String
  fr : Option String
  idx : Option String
  didx : Option String
  ir : Option String
deriving DecidableEq

/-- Lines 141–148 of the source: build the `candidates` dict.  The dict
literal evaluates its values in declaration order, so the palette cache is
threaded through `IDX`, then `D_IDX`, then `IR`. -/
def computeCandidates (img : List Color) (prev : Option (List Color))
    (clientPids : List Nat) (m : PaletteManager) :
    Candidates × PaletteManager :=
  let full := createFullUpdate img
  let diff := createDiffUpdate img prev
  let fr := createFullRleUpdate img
  let r1 := createIndexedUpdate img clientPids m
  let r2 := createDiffIndexedUpdate img prev clientPids r1.1
  let r3 := createIndexedRleUpdate img clientPids r2.1
  (⟨full, diff, fr, r1.2, r2.2, r3.2⟩, r3.1)

/-- `valid_candidates`: the non-declining candidates, as `(key, payload)`
pairs, in the dict's declaration order
`FULL, DIFF, FR, IDX, D_IDX, IR`. -/
def validCandidates (c : Candidates) : List (String × String) :=
  [("FULL", some c.full), ("DIFF", c.diff), ("FR", c.fr),
   ("IDX", c.idx), ("D_IDX", c.didx), ("IR", c.ir)].filterMap
    (fun tv => tv.2.map (fun v => (tv.1, v)))

/-- `min(valid_candidates.items(), key=lambda item: len(item[1]))`:
Python's `min` scans left to right and replaces the running best only on a
strictly smaller key, so the first minimum wins. -/
def selectBest (l : List (String × String)) : Option (String × String) :=
  match l with
  | [] => none
  | x :: xs =>
    some (xs.foldl (fun best c => if c.2.length < best.2.length then c else best) x)

/-- `[data_to_send[i:i + CHUNK_SIZE_LIMIT] for i in range(0,
len(data_to_send), CHUNK_SIZE_LIMIT)]`: `range(0, n, L)` for `0 < L`
yields the `⌈n / L⌉` start offsets `0, L, 2·L, …`, and each slice takes at
most `L` characters from its offset. -/
def chunkify (s : String) (L : Nat) : List String :=
  (List.range ((s.toList.length + L - 1) / L)).map
    (fun k => String.mk ((s.toList.drop (k * L)).take L))

/-- One stored frame: the chunk list, the timestamp and the retained
source buffer. -/
structure FrameData where
  chunks : List String
  timestamp : Nat
  imageData : List Color
deriving DecidableEq

/-- The `IMAGE_FRAMES` ordered dict: association list in insertion order
(front = oldest). -/
abbrev FrameStore := List (String × FrameData)

/-- `IMAGE_FRAMES[next(reversed(IMAGE_FRAMES))].get('image_data') if
IMAGE_FRAMES else None`: the most recently inserted frame's source
buffer. -/
def latestImage (frames : FrameStore) : Option (List Color) :=
  frames.getLast?.map (fun e => e.2.imageData)

/-- Outcome of one `new_frame` request: HTTP status, response body, and
the palette-cache and frame-store states afterwards. -/
structure NewFrameResult where
  status : Nat
  body : Option String
  mgr : PaletteManager
  frames : FrameStore
deriving DecidableEq

/-- `ImageChunkHandler._handle_new_frame`, from the point where the pixel
buffer exists (the producer, mode rotation and HTTP plumbing are external
to the core): run the six encoders, pick the shortest candidate (`204` if
none), chunk it, store the frame (evicting the oldest past
`MAX_FRAMES_TO_KEEP`), and answer `frame_id;chunk_count`, plus the first
chunk inline when the three-field body stays under the chunk limit.  The
fresh `uuid` and `time.time()` are parameters `frameId` and `now`. -/
def handleNewFrame (img : List Color) (clientPids : List Nat)
    (m : PaletteManager) (frames : FrameStore) (frameId : String)
    (now : Nat) : NewFrameResult :=
  let prev := latestImage frames
  let r := computeCandidates img prev clientPids m
  match selectBest (validCandidates r.1) with
  | none => ⟨204, none, r.2, frames⟩
  | some best =>
    let dataToSend := best.2
    let chunks := chunkify dataToSend CHUNK_SIZE_LIMIT
    let frames1 := frames ++ [(frameId, ⟨chunks, now, img⟩)]
    let frames2 := if MAX_FRAMES_TO_KEEP < frames1.length then frames1.tail
      else frames1
    let body0 := frameId ++ ";" ++ toString chunks.length
    let body :=
      match chunks with
      | [] => body0
      | c0 :: _ =>
        if body0.length + 1 + c0.length < CHUNK_SIZE_LIMIT then
          body0 ++ ";" ++ c0
        else body0
    ⟨200, some body, r.2, frames2⟩

/-!
## Chunk fetch (`ImageChunkHandler._handle_get_chunk` under `do_GET`)
-/

/-- Python `int(s)` on a decimal string: optional sign followed by at
least one digit (the model accepts the common core of CPython's syntax;
anything it accepts, CPython accepts with the same value).  `none` models
the `ValueError` that `do_GET` turns into a `500`. -/
def pyInt (s : String) : Option Int :=
  let digits (l : List Char) : Option Nat :=
    if l = [] then none
    else if l.all (fun c => c.isDigit) then
      some (l.foldl (fun acc c => acc * 10 + (c.toNat - '0'.toNat)) 0)
    else none
  match s.toList with
  | '-' :: rest => (digits rest).map (fun n => -(n : Int))
  | '+' :: rest => (digits rest).map (fun n => (n : Int))
  | l => (digits l).map (fun n => (n : Int))

/-- Dictionary lookup `frame_id in IMAGE_FRAMES` / `IMAGE_FRAMES[frame_id]`. -/
def lookupFrame (frames : FrameStore) (fid : String) : Option FrameData :=
  match frames with
  | [] => none
  | e :: es => if e.1 = fid then some e.2 else lookupFrame es fid

/-- Outcome of one `get_chunk` request: HTTP status and body. -/
structure GetChunkResult where
  status : Nat
  body : Option String
deriving DecidableEq

/-- `ImageChunkHandler._handle_get_chunk` including `do_GET`'s
`except Exception: send_error(500)` wrapper: the `chunk` parameter
defaults to `0` and is parsed by `int()` (a parse failure raises, hence
`500`); then a truthy, known `frame_id` with `0 <= chunk_index <
len(chunks)` answers `200` with `frame_id;chunk_index;chunk`, anything
else `404`. -/
def handleGetChunk (frames : FrameStore) (frameId : Option String)
    (chunkParam : Option String) : GetChunkResult :=
  let parsed : Option Int :=
    match chunkParam with
    | none => some 0
    | some s => pyInt s
  match parsed with
  | none => ⟨500, none⟩
  | some ci =>
    match frameId with
    | none => ⟨404, none⟩
    | some fid =>
      if fid = "" then ⟨404, none⟩
      else
        match lookupFrame frames fid with
        | none => ⟨404, none⟩
        | some fd =>
          if 0 ≤ ci ∧ ci < fd.chunks.length then
            ⟨200, some (fid ++ ";" ++ toString ci ++ ";" ++
              fd.chunks.toArray.getD ci.toNat "")⟩
          else ⟨404, none⟩

/-- The running-minimum fold inside `selectBest` (Python `min` with a
`len` key over the items listed from `x` onwards). -/
def foldMin (x : String × String) (xs : List (String × String)) :
    String × String :=
  xs.foldl (fun best c => if c.2.length < best.2.length then c else best) x

/-!
## Concrete scenario inputs

`imgTwoPx` is the 2×1 buffer of the spec's end-to-end scenario.
`imgTie`/`prevTie` realise an exact byte-length tie between the `DIFF`
and `FR` candidates: 18 pixels in three runs of 4, 13 and 1, with the
previous buffer differing at the flat positions 0, 1 and 17 (one
two-hex-digit index), so both payloads are 29 bytes long while every
other candidate is longer.
-/

/-- The 2×1 buffer `[(0,0,0), (255,255,255)]` of the end-to-end
scenario. -/
def imgTwoPx : List Color := [(0, 0, 0), (255, 255, 255)]

/-- 18-pixel buffer: four `(0,0,0)`, thirteen `(1,1,1)`, one `(2,2,2)`. -/
def imgTie : List Color :=
  List.replicate 4 (0, 0, 0) ++ List.replicate 13 (1, 1, 1) ++ [(2, 2, 2)]

/-- Previous buffer for `imgTie`, differing exactly at positions 0, 1
and 17. -/
def prevTie : List Color :=
  [(9, 9, 9), (9, 9, 9)] ++ List.replicate 2 (0, 0, 0)
    ++ List.replicate 13 (1, 1, 1) ++ [(9, 9, 9)]

/-!
## Lemmas about the RLE primitive
-/

section RLELemmas

variable {α : Type} [DecidableEq α]

lemma rleExpand_rleGo (rest : List α) (prev : α) (c : Nat) :
    rleExpand (rleGo prev c rest) = List.replicate c prev ++ rest := by
  induction rest generalizing prev c with
  | nil => simp [rleGo, rleExpand]
  | cons v rest ih =>
    by_cases h : v = prev
    · subst h
      simp [rleGo, ih, List.replicate_succ', List.append_assoc]
    · simp only [rleGo, if_neg h, rleExpand, ih, List.replicate_one,
        List.singleton_append]

lemma rleGo_sum (rest : List α) (prev : α) (c : Nat) :
    ((rleGo prev c rest).map (fun p => p.2)).sum = c + rest.length := by
  induction rest generalizing prev c with
  | nil => simp [rleGo]
  | cons v rest ih =>
    by_cases h : v = prev
    · simp only [rleGo, if_pos h, ih, List.length_cons]
      omega
    · simp only [rleGo, if_neg h, List.map_cons, List.sum_cons, ih,
        List.length_cons]
      omega

lemma rleGo_ne_nil (rest : List α) (prev : α) (c : Nat) :
    rleGo prev c rest ≠ [] := by
  induction rest generalizing prev c with
  | nil => simp [rleGo]
  | cons v rest ih =>
    by_cases h : v = prev
    · simpa [rleGo, if_pos h] using ih prev (c + 1)
    · simp [rleGo, if_neg h]

lemma rleEncode_ne_nil (x : α) (xs : List α) : rleEncode (x :: xs) ≠ [] := by
  simpa [rleEncode] using rleGo_ne_nil xs x 1

end RLELemmas

/-- C6: expanding the RLE encoder's output (run-length repetitions of each
symbol in pair order) reproduces the input sequence exactly, the run
lengths sum to the input length, and the empty sequence encodes to the
empty output. -/
theorem rle_roundtrip {α : Type} [DecidableEq α] (xs : List α) :
    rleExpand (rleEncode xs) = xs
    ∧ ((rleEncode xs).map (fun p => p.2)).sum = xs.length
    ∧ rleEncode ([] : List α) = [] := by
  refine ⟨?_, ?_, rfl⟩
  · cases xs with
    | nil => rfl
    | cons x xs => simpa [rleEncode, rleExpand] using rleExpand_rleGo xs x 1
  · cases xs with
    | nil => rfl
    | cons x xs =>
      have h := rleGo_sum xs x 1
      simp only [rleEncode, h, List.length_cons]
      omega

/-!
## Lemmas about the chunk split
-/

lemma chunksJoinAux (L : Nat) :
    ∀ (n : Nat) (data : List Char), data.length ≤ n * L →
      ((List.range n).map (fun k => (data.drop (k * L)).take L)).flatten = data := by
  intro n
  induction n with
  | zero =>
    intro data h
    have hd : data = [] := List.eq_nil_of_length_eq_zero (Nat.le_zero.mp (by simpa using h))
    simp [hd]
  | succ n ih =>
    intro data h
    rw [List.range_succ_eq_map, List.map_cons, List.map_map, List.flatten_cons]
    have hmap : (List.range n).map ((fun k => (data.drop (k * L)).take L) ∘ Nat.succ)
        = (List.range n).map (fun k => ((data.drop L).drop (k * L)).take L) := by
      refine List.map_congr_left fun k _ => ?_
      simp only [Function.comp_apply]
      rw [List.drop_drop]
      have harith : Nat.succ k * L = L + k * L := by
        rw [Nat.succ_mul, Nat.add_comm]
      rw [harith]
    rw [Nat.succ_mul] at h
    rw [hmap, ih (data.drop L)
      (by rw [List.length_drop]; exact Nat.sub_le_iff_le_add.mpr h)]
    simp [List.take_append_drop]

lemma ceil_mul_le (a L : Nat) (hL : 0 < L) : a ≤ (a + L - 1) / L * L := by
  have h := Nat.lt_div_mul_add (a := a + L - 1) hL
  generalize (a + L - 1) / L * L = M at h ⊢
  omega

lemma chunk_start_lt (a L k : Nat) (hL : 0 < L) (hk : k < (a + L - 1) / L) :
    k * L < a := by
  have h1 : (a + L - 1) / L * L ≤ a + L - 1 := Nat.div_mul_le_self _ _
  have h3 : (k + 1) * L ≤ (a + L - 1) / L * L := Nat.mul_le_mul_right L hk
  rw [Nat.succ_mul] at h3
  generalize (a + L - 1) / L * L = M at h1 h3
  generalize k * L = K at h3 ⊢
  omega

lemma string_join_data (l : List String) :
    (String.join l).data = (l.map String.data).flatten := by
  have haux : ∀ acc : String, (l.foldl (fun r s => r ++ s) acc).data
      = acc.data ++ (l.map String.data).flatten := by
    induction l with
    | nil => intro acc; simp
    | cons x xs ih =>
      intro acc
      simp only [List.foldl_cons, List.map_cons, List.flatten_cons, ih,
        String.data_append]
      simp
  exact haux ""

lemma chunkify_mem {s : String} {L : Nat} {c : String}
    (hc : c ∈ chunkify s L) :
    ∃ k, k < (s.toList.length + L - 1) / L
      ∧ c = String.mk ((s.toList.drop (k * L)).take L) := by
  simp only [chunkify, List.mem_map, List.mem_range] at hc
  obtain ⟨k, hk, hck⟩ := hc
  exact ⟨k, hk, hck.symm⟩

lemma chunkify_join (s : String) (L : Nat) (hL : 0 < L) :
    String.join (chunkify s L) = s := by
  refine String.ext ?_
  rw [string_join_data]
  have hmap : (chunkify s L).map String.data
      = (List.range ((s.toList.length + L - 1) / L)).map
          (fun k => (s.toList.drop (k * L)).take L) := by
    simp [chunkify, List.map_map, Function.comp]
  rw [hmap, chunksJoinAux L _ s.toList (ceil_mul_le _ L hL)]
  rfl

lemma chunkify_length_le {s : String} {L : Nat} {c : String}
    (hc : c ∈ chunkify s L) : c.length ≤ L := by
  obtain ⟨k, _, rfl⟩ := chunkify_mem hc
  rw [String.length_mk, List.length_take]
  exact min_le_left _ _

lemma chunkify_ne_empty {s : String} {L : Nat} (hL : 0 < L) {c : String}
    (hc : c ∈ chunkify s L) : c ≠ "" := by
  obtain ⟨k, hk, rfl⟩ := chunkify_mem hc
  intro hcon
  have hdata : (s.toList.drop (k * L)).take L = [] :=
    congrArg String.data hcon
  rcases List.take_eq_nil_iff.mp hdata with h0 | hnil
  · omega
  · have hlt := chunk_start_lt s.toList.length L k hL hk
    have hlen : s.toList.length ≤ k * L := List.drop_eq_nil_iff.mp hnil
    generalize k * L = K at hlt hlen
    omega

/-- C8: for every payload, the chunk list splits it into consecutive
slices each of at most `CHUNK_SIZE_LIMIT` bytes, concatenating the chunks
in order reproduces the payload exactly, and a payload whose length is an
exact multiple of the chunk size yields no trailing empty chunk.  (The
frame store entry built by `handleNewFrame` holds exactly
`chunkify payload CHUNK_SIZE_LIMIT` for the selected payload.) -/
theorem chunk_reconstruction (payload : String) :
    (∀ c ∈ chunkify payload CHUNK_SIZE_LIMIT, c.length ≤ CHUNK_SIZE_LIMIT)
    ∧ String.join (chunkify payload CHUNK_SIZE_LIMIT) = payload
    ∧ (CHUNK_SIZE_LIMIT ∣ payload.length →
        "" ∉ chunkify payload CHUNK_SIZE_LIMIT) := by
  refine ⟨fun c hc => chunkify_length_le hc,
    chunkify_join payload CHUNK_SIZE_LIMIT (by decide),
    fun _ hmem => chunkify_ne_empty (by decide) hmem rfl⟩

/-- Witness for C8 at the concrete payload `""` (length `0`, an exact
multiple of the chunk size). -/
theorem chunk_reconstruction_witness :
    String.join (chunkify "" CHUNK_SIZE_LIMIT) = ""
    ∧ (CHUNK_SIZE_LIMIT ∣ ("" : String).length
        ∧ "" ∉ chunkify "" CHUNK_SIZE_LIMIT) :=
  ⟨(chunk_reconstruction "").2.1,
    ⟨Dvd.intro 0 rfl, (chunk_reconstruction "").2.2 (Dvd.intro 0 rfl)⟩⟩

/-!
## Lemmas about candidate selection
-/

lemma foldMin_nil (x : String × String) : foldMin x [] = x := rfl

lemma foldMin_spec (xs : List (String × String)) :
    ∀ x, (foldMin x xs = x ∧ ∀ c ∈ xs, x.2.length ≤ c.2.length)
      ∨ ((foldMin x xs).2.length < x.2.length
          ∧ ∃ pre post, xs = pre ++ (foldMin x xs) :: post
            ∧ (∀ c ∈ pre, (foldMin x xs).2.length < c.2.length)
            ∧ (∀ c ∈ xs, (foldMin x xs).2.length ≤ c.2.length)) := by
  induction xs with
  | nil =>
    intro x
    left
    exact ⟨rfl, by simp⟩
  | cons y ys ih =>
    intro x
    by_cases h : y.2.length < x.2.length
    · have hstep : foldMin x (y :: ys) = foldMin y ys := by
        simp [foldMin, List.foldl_cons, if_pos h]
      rw [hstep]
      rcases ih y with ⟨hb, hmin⟩ | ⟨hlt, pre, post, heq, hpre, hmin⟩
      · right
        rw [hb]
        refine ⟨h, [], ys, rfl, by simp, fun c hc => ?_⟩
        rcases List.mem_cons.mp hc with rfl | hc
        · exact Nat.le_refl _
        · exact hmin c hc
      · right
        refine ⟨Nat.lt_trans hlt h, y :: pre, post, congrArg (List.cons y) heq,
          fun c hc => ?_, fun c hc => ?_⟩
        · rcases List.mem_cons.mp hc with rfl | hc
          · exact hlt
          · exact hpre c hc
        · rcases List.mem_cons.mp hc with rfl | hc
          · exact Nat.le_of_lt hlt
          · exact hmin c hc
    · have hstep : foldMin x (y :: ys) = foldMin x ys := by
        simp [foldMin, List.foldl_cons, if_neg h]
      rw [hstep]
      have hxy : x.2.length ≤ y.2.length := Nat.le_of_not_lt h
      rcases ih x with ⟨hb, hmin⟩ | ⟨hlt, pre, post, heq, hpre, hmin⟩
      · left
        refine ⟨hb, fun c hc => ?_⟩
        rcases List.mem_cons.mp hc with rfl | hc
        · exact hxy
        · exact hmin c hc
      · right
        refine ⟨hlt, y :: pre, post, congrArg (List.cons y) heq,
          fun c hc => ?_, fun c hc => ?_⟩
        · rcases List.mem_cons.mp hc with rfl | hc
          · exact Nat.lt_of_lt_of_le hlt hxy
          · exact hpre c hc
        · rcases List.mem_cons.mp hc with rfl | hc
          · exact Nat.le_trans (Nat.le_of_lt hlt) hxy
          · exact hmin c hc

lemma selectBest_spec {l : List (String × String)} {best : String × String}
    (hsel : selectBest l = some best) :
    ∃ pre post, l = pre ++ best :: post
      ∧ (∀ c ∈ pre, best.2.length < c.2.length)
      ∧ (∀ c ∈ l, best.2.length ≤ c.2.length) := by
  cases l with
  | nil => simp [selectBest] at hsel
  | cons x xs =>
    have hb : foldMin x xs = best := by
      rw [show selectBest (x :: xs) = some (foldMin x xs) from rfl] at hsel
      exact Option.some.inj hsel
    rcases foldMin_spec xs x with ⟨heq, hmin⟩ | ⟨hlt, pre, post, heq, hpre, hmin⟩
    · refine ⟨[], xs, ?_, by simp, fun c hc => ?_⟩
      · rw [List.nil_append, ← hb, heq]
      · rcases List.mem_cons.mp hc with rfl | hc
        · rw [← hb, heq]
        · rw [← hb, heq]
          exact hmin c hc
    · refine ⟨x :: pre, post, ?_, fun c hc => ?_, fun c hc => ?_⟩
      · rw [← hb]
        exact congrArg (List.cons x) heq
      · rcases List.mem_cons.mp hc with rfl | hc
        · rw [← hb]
          exact hlt
        · rw [← hb]
          exact hpre c hc
      · rcases List.mem_cons.mp hc with rfl | hc
        · rw [← hb]
          exact Nat.le_of_lt hlt
        · rw [← hb]
          exact hmin c hc

lemma validCandidates_cons (c : Candidates) :
    validCandidates c = ("FULL", c.full) ::
      List.filterMap (fun tv => tv.2.map (fun v => (tv.1, v)))
        [("DIFF", c.diff), ("FR", c.fr), ("IDX", c.idx),
         ("D_IDX", c.didx), ("IR", c.ir)] := rfl

lemma selectBest_validCandidates (c : Candidates) :
    ∃ b, selectBest (validCandidates c) = some b := by
  rw [validCandidates_cons]
  exact ⟨_, rfl⟩

lemma computeCandidates_full (img : List Color) (prev : Option (List Color))
    (clientPids : List Nat) (m : PaletteManager) :
    (computeCandidates img prev clientPids m).1.full = createFullUpdate img := rfl

/-- C1 (amended): for every request, the Frame Publisher returns a
candidate of minimal byte length among the non-declining candidates, and
on an exact byte-length tie the one earliest in the candidate-dict order
`FULL, DIFF, FULL_RLE, INDEXED, DIFF_INDEXED, INDEXED_RLE` (the selected
candidate is preceded only by strictly longer ones): `DIFF` precedes
`FULL_RLE` in the code, unlike the table order stated in the claim. -/
theorem selection_minimality (img : List Color) (prev : Option (List Color))
    (clientPids : List Nat) (m : PaletteManager) (best : String × String)
    (hsel : selectBest (validCandidates
        (computeCandidates img prev clientPids m).1) = some best) :
    ∃ pre post,
      validCandidates (computeCandidates img prev clientPids m).1
        = pre ++ best :: post
      ∧ (∀ c ∈ pre, best.2.length < c.2.length)
      ∧ (∀ c ∈ validCandidates (computeCandidates img prev clientPids m).1,
          best.2.length ≤ c.2.length) :=
  selectBest_spec hsel

/-- Witness for C1 (amended) on the one-pixel buffer `[(0,0,0)]` with a
fresh cache: the selection is `FULL` with payload `F|AAAA`, which is
minimal among the two candidates. -/
theorem selection_minimality_witness :
    ∃ pre post,
      validCandidates
          (computeCandidates [((0 : Nat), (0 : Nat), (0 : Nat))] none []
            PaletteManager.init).1
        = pre ++ ("FULL", "F|AAAA") :: post
      ∧ (∀ c ∈ pre, ("FULL", "F|AAAA").2.length < c.2.length)
      ∧ (∀ c ∈ validCandidates
            (computeCandidates [((0 : Nat), (0 : Nat), (0 : Nat))] none []
              PaletteManager.init).1,
          ("FULL", "F|AAAA").2.length ≤ c.2.length) :=
  selection_minimality [(0, 0, 0)] none [] PaletteManager.init
    ("FULL", "F|AAAA") (by decide)

/-- C1 counterexample: on `imgTie` against `prevTie` (fresh cache, empty
hint set) the `DIFF` and `FR` (= FULL_RLE) candidates are an exact
29-byte tie and minimal, and the publisher selects `DIFF`; the claim's
stated table order `FULL, FULL_RLE, DIFF, …` would demand `FULL_RLE`. -/
theorem selection_tie_counterexample :
    selectBest (validCandidates
        (computeCandidates imgTie (some prevTie) [] PaletteManager.init).1)
      = some ("DIFF", "D|0:000000|1:000000|11:020202")
    ∧ ("FR", "FR|000000,4|010101,d|020202,1")
        ∈ validCandidates
            (computeCandidates imgTie (some prevTie) [] PaletteManager.init).1
    ∧ ("FR|000000,4|010101,d|020202,1" : String).length
        = ("D|0:000000|1:000000|11:020202" : String).length
    ∧ (∀ c ∈ validCandidates
          (computeCandidates imgTie (some prevTie) [] PaletteManager.init).1,
        ("D|0:000000|1:000000|11:020202" : String).length ≤ c.2.length) := by
  decide

/-- C2 counterexample: for the 2×1 buffer `[(0,0,0),(255,255,255)]` with
no previous frame and a fresh, empty cache, the `INDEXED` candidate is
indeed the 20-byte `I|0|000000,ffffff|01`, but the `FULL` candidate
`F|AAAA////` has only 10 bytes, so `INDEXED` is neither strictly shorter
than `FULL` nor selected. -/
theorem indexed_scenario_counterexample :
    (computeCandidates imgTwoPx none [] PaletteManager.init).1.idx
      = some "I|0|000000,ffffff|01"
    ∧ (computeCandidates imgTwoPx none [] PaletteManager.init).1.full
      = "F|AAAA////"
    ∧ ¬ ("F|AAAA////" : String).length > ("I|0|000000,ffffff|01" : String).length
    ∧ selectBest (validCandidates
        (computeCandidates imgTwoPx none [] PaletteManager.init).1)
      ≠ some ("IDX", "I|0|000000,ffffff|01") := by
  decide

/-- C2 (amended): for the 2×1 buffer `[(0,0,0),(255,255,255)]` with no
previous frame and an empty palette-hint set, the `INDEXED` candidate is
`I|0|000000,ffffff|01` and the `FULL_RLE` candidate is
`FR|000000,1|ffffff,1` (both 20 bytes), but the `FULL` candidate is the
10-byte `F|AAAA////`, strictly shorter than both, so the publisher
selects `FULL`. -/
theorem indexed_scenario_amended :
    (computeCandidates imgTwoPx none [] PaletteManager.init).1.idx
      = some "I|0|000000,ffffff|01"
    ∧ (computeCandidates imgTwoPx none [] PaletteManager.init).1.fr
      = some "FR|000000,1|ffffff,1"
    ∧ (computeCandidates imgTwoPx none [] PaletteManager.init).1.full
      = "F|AAAA////"
    ∧ ("F|AAAA////" : String).length < ("I|0|000000,ffffff|01" : String).length
    ∧ ("F|AAAA////" : String).length < ("FR|000000,1|ffffff,1" : String).length
    ∧ selectBest (validCandidates
        (computeCandidates imgTwoPx none [] PaletteManager.init).1)
      = some ("FULL", "F|AAAA////") := by
  decide

/-!
## Palette-cache mutation during a request
-/

lemma createIndexedUpdate_notBound (img : List Color) (pids : List Nat)
    (m : PaletteManager)
    (h : ¬(1 < numColors img ∧ numColors img ≤ MAX_PALETTE_COLORS)) :
    createIndexedUpdate img pids m = (m, none) := by
  simp only [createIndexedUpdate, if_neg h]

lemma createIndexedRleUpdate_notBound (img : List Color) (pids : List Nat)
    (m : PaletteManager)
    (h : ¬(1 < numColors img ∧ numColors img ≤ MAX_PALETTE_COLORS)) :
    createIndexedRleUpdate img pids m = (m, none) := by
  simp only [createIndexedRleUpdate, if_neg h]

lemma createDiffIndexedUpdate_notBound (img : List Color)
    (prev : Option (List Color)) (pids : List Nat) (m : PaletteManager)
    (h : ¬(1 < numColors img ∧ numColors img ≤ MAX_PALETTE_COLORS)) :
    createDiffIndexedUpdate img prev pids m = (m, none) := by
  cases prev with
  | none => rfl
  | some p => simp only [createDiffIndexedUpdate, if_neg h]

lemma computeCandidates_mgr_notBound (img : List Color)
    (prev : Option (List Color)) (pids : List Nat) (m : PaletteManager)
    (h : ¬(1 < numColors img ∧ numColors img ≤ MAX_PALETTE_COLORS)) :
    (computeCandidates img prev pids m).2 = m := by
  simp [computeCandidates, createIndexedUpdate_notBound img pids m h,
    createDiffIndexedUpdate_notBound img prev pids m h,
    createIndexedRleUpdate_notBound img pids m h]

/-- C3 counterexample: the Palette Cache is mutated already during
candidate computation — before any candidate has been selected, before
the Frame Store is written, and so before the request is known to
succeed: on the two-color 2×1 buffer with a fresh cache, the candidate
phase alone inserts palette `0`.  A failure in any step after the indexed
encoders would therefore leave the cache changed, contradicting the
claim that no mutation happens before a payload has been fully and
successfully computed. -/
theorem mutation_before_publish_counterexample :
    (computeCandidates imgTwoPx none [] PaletteManager.init).2
      ≠ PaletteManager.init
    ∧ (computeCandidates imgTwoPx none [] PaletteManager.init).2.palettes
      = [(0, [(0, 0, 0), (255, 255, 255)])] := by
  decide

/-- C3 (amended): the Frame Store is written only after a payload has
been selected, but the Palette Cache is mutated during candidate
computation by whichever indexed encoder reaches
`get_or_create_palette`; the cache stays untouched by an entire request
exactly when no encoder reaches that call — in particular, whenever the
distinct-color bound `1 < n ≤ 256` fails, the request leaves the Palette
Cache unchanged. -/
theorem palette_cache_untouched (img : List Color) (clientPids : List Nat)
    (m : PaletteManager) (frames : FrameStore) (frameId : String) (now : Nat)
    (h : ¬(1 < numColors img ∧ numColors img ≤ MAX_PALETTE_COLORS)) :
    (handleNewFrame img clientPids m frames frameId now).mgr = m := by
  have hm := computeCandidates_mgr_notBound img (latestImage frames)
    clientPids m h
  simp only [handleNewFrame]
  split
  · simpa using hm
  · simpa using hm

/-- Witness for C3 (amended) on a single-color buffer (one distinct
color, so the bound fails): the whole request leaves the fresh cache
unchanged. -/
theorem palette_cache_untouched_witness :
    (handleNewFrame [((0 : Nat), (0 : Nat), (0 : Nat))] []
        PaletteManager.init [] "fid" 0).mgr = PaletteManager.init :=
  palette_cache_untouched [(0, 0, 0)] [] PaletteManager.init [] "fid" 0
    (by decide)

/-- C10: the `FULL` encoder never declines, so the valid-candidate list
always contains the `FULL` candidate, is never empty, and every
`new_frame` request that reaches encoding answers `200` — the `204`
"no eligible encoding" branch is unreachable. -/
theorem full_always_candidate (img : List Color) (prev : Option (List Color))
    (clientPids : List Nat) (m : PaletteManager) (frames : FrameStore)
    (frameId : String) (now : Nat) :
    ("FULL", createFullUpdate img)
      ∈ validCandidates (computeCandidates img prev clientPids m).1
    ∧ validCandidates (computeCandidates img prev clientPids m).1 ≠ []
    ∧ (handleNewFrame img clientPids m frames frameId now).status = 200 := by
  refine ⟨?_, ?_, ?_⟩
  · rw [← computeCandidates_full img prev clientPids m,
      validCandidates_cons]
    exact List.mem_cons_self _ _
  · rw [validCandidates_cons]
    simp
  · obtain ⟨b, hb⟩ := selectBest_validCandidates
      (computeCandidates img (latestImage frames) clientPids m).1
    simp only [handleNewFrame, hb]

/-!
## Decline conditions of the indexed encoders
-/

lemma createIndexedUpdate_some (img : List Color) (pids : List Nat)
    (m : PaletteManager)
    (h : 1 < numColors img ∧ numColors img ≤ MAX_PALETTE_COLORS) :
    ∃ s, (createIndexedUpdate img pids m).2 = some s := by
  simp only [createIndexedUpdate, if_pos h]
  exact ⟨_, rfl⟩

lemma createIndexedUpdate_none_iff (img : List Color) (pids : List Nat)
    (m : PaletteManager) :
    (createIndexedUpdate img pids m).2 = none
      ↔ (numColors img ≤ 1 ∨ MAX_PALETTE_COLORS < numColors img) := by
  by_cases h : 1 < numColors img ∧ numColors img ≤ MAX_PALETTE_COLORS
  · obtain ⟨s, hs⟩ := createIndexedUpdate_some img pids m h
    rw [hs]
    simp only [MAX_PALETTE_COLORS] at h ⊢
    constructor
    · intro hcon
      exact absurd hcon (by simp)
    · intro hcon
      omega
  · rw [createIndexedUpdate_notBound img pids m h]
    simp only [MAX_PALETTE_COLORS] at h ⊢
    constructor
    · intro _
      omega
    · intro _
      trivial

lemma createIndexedRleUpdate_some (img : List Color) (pids : List Nat)
    (m : PaletteManager)
    (h : 1 < numColors img ∧ numColors img ≤ MAX_PALETTE_COLORS) :
    ∃ s, (createIndexedRleUpdate img pids m).2 = some s := by
  have himg : img ≠ [] := by
    intro hnil
    rw [hnil] at h
    exact absurd h (by decide)
  obtain ⟨x, xs, rfl⟩ : ∃ x xs, img = x :: xs := by
    cases img with
    | nil => exact absurd rfl himg
    | cons a l => exact ⟨a, l, rfl⟩
  simp only [createIndexedRleUpdate, if_pos h, List.map_cons]
  rw [if_neg (rleEncode_ne_nil _ _)]
  exact ⟨_, rfl⟩

lemma createIndexedRleUpdate_none_iff (img : List Color) (pids : List Nat)
    (m : PaletteManager) :
    (createIndexedRleUpdate img pids m).2 = none
      ↔ (numColors img ≤ 1 ∨ MAX_PALETTE_COLORS < numColors img) := by
  by_cases h : 1 < numColors img ∧ numColors img ≤ MAX_PALETTE_COLORS
  · obtain ⟨s, hs⟩ := createIndexedRleUpdate_some img pids m h
    rw [hs]
    simp only [MAX_PALETTE_COLORS] at h ⊢
    constructor
    · intro hcon
      exact absurd hcon (by simp)
    · intro hcon
      omega
  · rw [createIndexedRleUpdate_notBound img pids m h]
    simp only [MAX_PALETTE_COLORS] at h ⊢
    constructor
    · intro _
      omega
    · intro _
      trivial

lemma createDiffIndexedUpdate_none_iff (img : List Color)
    (prev : Option (List Color)) (pids : List Nat) (m : PaletteManager) :
    (createDiffIndexedUpdate img prev pids m).2 = none
      ↔ (prev = none ∨ numColors img ≤ 1 ∨ MAX_PALETTE_COLORS < numColors img
          ∨ ∃ p, prev = some p ∧ changedPixels img p = []) := by
  cases prev with
  | none => simp [createDiffIndexedUpdate]
  | some p =>
    by_cases h : 1 < numColors img ∧ numColors img ≤ MAX_PALETTE_COLORS
    · by_cases hd : changedPixels img p = []
      · constructor
        · intro _
          exact Or.inr (Or.inr (Or.inr ⟨p, rfl, hd⟩))
        · intro _
          simp [createDiffIndexedUpdate, h, hd]
      · have hsome : ∃ s, (createDiffIndexedUpdate img (some p) pids m).2
            = some s := by
          simp only [createDiffIndexedUpdate, if_pos h, if_neg hd]
          exact ⟨_, rfl⟩
        obtain ⟨s, hs⟩ := hsome
        rw [hs]
        simp only [MAX_PALETTE_COLORS] at h ⊢
        constructor
        · intro hcon
          exact absurd hcon (by simp)
        · rintro (hcon | hcon | hcon | ⟨p', hp', hc'⟩)
          · exact absurd hcon (by simp)
          · exact absurd hcon (by omega)
          · exact absurd hcon (by omega)
          · cases Option.some.inj hp'
            exact absurd hc' hd
    · rw [createDiffIndexedUpdate_notBound img (some p) pids m h]
      simp only [MAX_PALETTE_COLORS] at h ⊢
      constructor
      · intro _
        rcases Nat.lt_or_ge (numColors img) 2 with hlt | hge
        · exact Or.inr (Or.inl (by omega))
        · exact Or.inr (Or.inr (Or.inl (by omega)))
      · intro _
        trivial

/-- C7: each of the `INDEXED` and `INDEXED_RLE` encoders declines exactly
when the buffer's distinct-color count `n` violates `1 < n ≤ 256`, and
`DIFF_INDEXED` declines exactly when additionally there is no previous
buffer or no changed pixel. -/
theorem indexed_decline_iff (img : List Color) (prev : Option (List Color))
    (pids : List Nat) (m : PaletteManager) :
    ((createIndexedUpdate img pids m).2 = none
      ↔ (numColors img ≤ 1 ∨ MAX_PALETTE_COLORS < numColors img))
    ∧ ((createIndexedRleUpdate img pids m).2 = none
      ↔ (numColors img ≤ 1 ∨ MAX_PALETTE_COLORS < numColors img))
    ∧ ((createDiffIndexedUpdate img prev pids m).2 = none
      ↔ (prev = none ∨ numColors img ≤ 1 ∨ MAX_PALETTE_COLORS < numColors img
          ∨ ∃ p, prev = some p ∧ changedPixels img p = [])) :=
  ⟨createIndexedUpdate_none_iff img pids m,
   createIndexedRleUpdate_none_iff img pids m,
   createDiffIndexedUpdate_none_iff img prev pids m⟩

/-!
## The `get_chunk` endpoint
-/

/-- C4 counterexample: a `get_chunk` request with an unknown `frame_id`
but a non-integer `chunk` value answers `500`, not `404` — `int()` raises
before the frame lookup and `do_GET` maps the exception to `500` — so the
response is not `404` "regardless of the value supplied for the chunk
parameter". -/
theorem get_chunk_counterexample :
    (handleGetChunk [] (some "deadbeef") (some "abc")).status = 500
    ∧ (handleGetChunk [] (some "deadbeef") (some "abc")).status ≠ 404 := by
  decide

/-- C4 (amended): when the `chunk` parameter parses as an integer (or is
absent, defaulting to `0`), an unknown `frame_id` answers `404`, and a
known `frame_id` with an index outside the chunk-list bounds answers
`404`; a non-integer `chunk` value instead answers `500`. -/
theorem get_chunk_not_found (frames : FrameStore) (fid : String)
    (chunkParam : Option String) (ci : Int)
    (hparse : (match chunkParam with
      | none => some 0
      | some s => pyInt s) = some ci) :
    (lookupFrame frames fid = none →
      (handleGetChunk frames (some fid) chunkParam).status = 404)
    ∧ (∀ fd, lookupFrame frames fid = some fd →
        ¬(0 ≤ ci ∧ ci < fd.chunks.length) →
        (handleGetChunk frames (some fid) chunkParam).status = 404) := by
  constructor
  · intro hlk
    by_cases hf : fid = ""
    · simp [handleGetChunk, hparse, hf]
    · simp [handleGetChunk, hparse, hf, hlk]
  · intro fd hlk hrange
    by_cases hf : fid = ""
    · simp [handleGetChunk, hparse, hf]
    · simp [handleGetChunk, hparse, hf, hlk, hrange]

/-- Witness for C4 (amended): the empty store with `frame_id "x"` and
integer chunk parameter `"5"` answers `404`. -/
theorem get_chunk_not_found_witness :
    (handleGetChunk [] (some "x") (some "5")).status = 404 :=
  (get_chunk_not_found [] "x" (some "5") 5 (by decide)).1 rfl

/-!
## Lemmas about the palette cache
-/

lemma findEntry_some {l : List PaletteEntry} {cs : List Color}
    {e : PaletteEntry} (h : findEntry l cs = some e) : e ∈ l ∧ e.2 = cs := by
  induction l with
  | nil => simp [findEntry] at h
  | cons x xs ih =>
    rw [findEntry] at h
    by_cases hx : x.2 = cs
    · rw [if_pos hx] at h
      cases Option.some.inj h
      exact ⟨List.mem_cons_self _ _, hx⟩
    · rw [if_neg hx] at h
      obtain ⟨hm, hc⟩ := ih h
      exact ⟨List.mem_cons_of_mem _ hm, hc⟩

lemma findEntry_none {l : List PaletteEntry} {cs : List Color}
    (h : findEntry l cs = none) : ∀ e ∈ l, e.2 ≠ cs := by
  induction l with
  | nil => simp
  | cons x xs ih =>
    rw [findEntry] at h
    by_cases hx : x.2 = cs
    · rw [if_pos hx] at h
      exact absurd h (by simp)
    · rw [if_neg hx] at h
      intro e he
      rcases List.mem_cons.mp he with rfl | he
      · exact hx
      · exact ih h e he

lemma findEntry_append_of_none {l1 : List PaletteEntry} {cs : List Color}
    (h : ∀ e ∈ l1, e.2 ≠ cs) (l2 : List PaletteEntry) :
    findEntry (l1 ++ l2) cs = findEntry l2 cs := by
  induction l1 with
  | nil => rfl
  | cons x xs ih =>
    rw [List.cons_append, findEntry, if_neg (h x (List.mem_cons_self _ _))]
    exact ih (fun e he => h e (List.mem_cons_of_mem _ he))

lemma findKey_some {l : List PaletteEntry} {k : Nat} {e : PaletteEntry}
    (h : findKey l k = some e) : e ∈ l ∧ e.1 = k := by
  induction l with
  | nil => simp [findKey] at h
  | cons x xs ih =>
    rw [findKey] at h
    by_cases hx : x.1 = k
    · rw [if_pos hx] at h
      cases Option.some.inj h
      exact ⟨List.mem_cons_self _ _, hx⟩
    · rw [if_neg hx] at h
      obtain ⟨hm, hc⟩ := ih h
      exact ⟨List.mem_cons_of_mem _ hm, hc⟩

lemma findKey_mem_exists {l : List PaletteEntry} {k : Nat}
    (h : ∃ x ∈ l, x.1 = k) : ∃ e, findKey l k = some e ∧ e.1 = k := by
  induction l with
  | nil => simp at h
  | cons y ys ih =>
    by_cases hy : y.1 = k
    · exact ⟨y, by rw [findKey, if_pos hy], hy⟩
    · obtain ⟨x, hx, hxk⟩ := h
      rcases List.mem_cons.mp hx with rfl | hx
      · exact absurd hxk hy
      · obtain ⟨e, he, hek⟩ := ih ⟨x, hx, hxk⟩
        exact ⟨e, by rw [findKey, if_neg hy]; exact he, hek⟩

lemma findKey_of_mem_nodup {l : List PaletteEntry} {e : PaletteEntry}
    (hmem : e ∈ l) (hnd : (l.map (fun x => x.1)).Nodup) :
    findKey l e.1 = some e := by
  induction l with
  | nil => simp at hmem
  | cons x xs ih =>
    rw [List.map_cons, List.nodup_cons] at hnd
    rcases List.mem_cons.mp hmem with rfl | hmem
    · rw [findKey, if_pos rfl]
    · rw [findKey]
      by_cases hx : x.1 = e.1
      · exact absurd (by rw [hx]; exact List.mem_map_of_mem _ hmem) hnd.1
      · rw [if_neg hx]
        exact ih hmem hnd.2

lemma eraseKey_length {l : List PaletteEntry} {k : Nat} {e : PaletteEntry}
    (h : findKey l k = some e) : (eraseKey l k).length + 1 = l.length := by
  induction l with
  | nil => simp [findKey] at h
  | cons x xs ih =>
    rw [findKey] at h
    by_cases hx : x.1 = k
    · rw [if_pos hx] at h
      simp [eraseKey, hx]
    · rw [if_neg hx] at h
      have := ih h
      simp only [eraseKey, if_neg hx, List.length_cons]
      omega

lemma mem_of_mem_eraseKey {l : List PaletteEntry} {k : Nat}
    {x : PaletteEntry} (h : x ∈ eraseKey l k) : x ∈ l := by
  induction l with
  | nil => simp [eraseKey] at h
  | cons y ys ih =>
    rw [eraseKey] at h
    by_cases hy : y.1 = k
    · rw [if_pos hy] at h
      exact List.mem_cons_of_mem _ h
    · rw [if_neg hy] at h
      rcases List.mem_cons.mp h with rfl | h
      · exact List.mem_cons_self _ _
      · exact List.mem_cons_of_mem _ (ih h)

lemma eraseKey_keys {l : List PaletteEntry} {k : Nat}
    (hkeys : (l.map (fun y => y.1)).Nodup) :
    ∀ x ∈ eraseKey l k, x.1 ≠ k := by
  induction l with
  | nil => simp [eraseKey]
  | cons y ys ih =>
    rw [List.map_cons, List.nodup_cons] at hkeys
    rw [eraseKey]
    by_cases hy : y.1 = k
    · rw [if_pos hy]
      intro x hx hxk
      exact hkeys.1 (by rw [hy, ← hxk]; exact List.mem_map_of_mem _ hx)
    · rw [if_neg hy]
      intro x hx hxk
      rcases List.mem_cons.mp hx with rfl | hx
      · exact hy hxk
      · exact ih hkeys.2 x hx hxk

lemma eraseKey_perm {l : List PaletteEntry} {k : Nat} {e : PaletteEntry}
    (h : findKey l k = some e) : l.Perm (e :: eraseKey l k) := by
  induction l with
  | nil => simp [findKey] at h
  | cons x xs ih =>
    rw [findKey] at h
    by_cases hx : x.1 = k
    · rw [if_pos hx] at h
      cases Option.some.inj h
      rw [eraseKey, if_pos hx]
    · rw [if_neg hx] at h
      rw [eraseKey, if_neg hx]
      exact ((ih h).cons x).trans (List.Perm.swap e x _)

lemma moveToEnd_length (l : List PaletteEntry) (k : Nat) :
    (moveToEnd l k).length = l.length := by
  unfold moveToEnd
  cases hf : findKey l k with
  | none => rfl
  | some e =>
    have := eraseKey_length hf
    simp only [List.length_append, List.length_singleton]
    omega

lemma moveToEnd_perm {l : List PaletteEntry} {k : Nat} {e : PaletteEntry}
    (h : findKey l k = some e) : (moveToEnd l k).Perm l := by
  simp only [moveToEnd, h]
  exact List.perm_append_comm.trans (eraseKey_perm h).symm

lemma moveToEnd_mem_key {l : List PaletteEntry} {k : Nat}
    (h : ∃ x ∈ l, x.1 = k) : ∃ e ∈ moveToEnd l k, e.1 = k := by
  obtain ⟨e, hfk, hek⟩ := findKey_mem_exists h
  refine ⟨e, ?_, hek⟩
  simp only [moveToEnd, hfk]
  exact List.mem_append_right _ (List.mem_singleton.mpr rfl)

lemma eq_of_mem_colors_nodup {l : List PaletteEntry} {x y : PaletteEntry}
    (hnd : (l.map (fun e => e.2)).Nodup) (hx : x ∈ l) (hy : y ∈ l)
    (hc : x.2 = y.2) : x = y := by
  induction l with
  | nil => simp at hx
  | cons z zs ih =>
    rw [List.map_cons, List.nodup_cons] at hnd
    rcases List.mem_cons.mp hx with hxz | hx2
    · rcases List.mem_cons.mp hy with hyz | hy2
      · rw [hxz, hyz]
      · exfalso
        apply hnd.1
        rw [← hxz, hc]
        exact List.mem_map_of_mem _ hy2
    · rcases List.mem_cons.mp hy with hyz | hy2
      · exfalso
        apply hnd.1
        rw [← hyz, ← hc]
        exact List.mem_map_of_mem _ hx2
      · exact ih hnd.2 hx2 hy2

lemma getOrCreatePalette_maxSize (m : PaletteManager) (cs : List Color) :
    (getOrCreatePalette m cs).1.maxSize = m.maxSize := by
  unfold getOrCreatePalette
  cases hfe : findEntry m.palettes cs with
  | none => rfl
  | some e => rfl

lemma getOrCreatePalette_size (m : PaletteManager) (cs : List Color)
    (hsz : m.palettes.length ≤ m.maxSize) :
    (getOrCreatePalette m cs).1.palettes.length ≤ m.maxSize := by
  unfold getOrCreatePalette
  cases hfe : findEntry m.palettes cs with
  | some e =>
    show (moveToEnd m.palettes e.1).length ≤ m.maxSize
    rw [moveToEnd_length]
    exact hsz
  | none =>
    by_cases hov : m.maxSize
        < (m.palettes ++ [(m.nextPaletteId, cs)]).length
    · show (if m.maxSize < (m.palettes ++ [(m.nextPaletteId, cs)]).length
          then (m.palettes ++ [(m.nextPaletteId, cs)]).tail
          else m.palettes ++ [(m.nextPaletteId, cs)]).length ≤ m.maxSize
      rw [if_pos hov, List.length_tail, List.length_append,
        List.length_singleton]
      omega
    · show (if m.maxSize < (m.palettes ++ [(m.nextPaletteId, cs)]).length
          then (m.palettes ++ [(m.nextPaletteId, cs)]).tail
          else m.palettes ++ [(m.nextPaletteId, cs)]).length ≤ m.maxSize
      rw [if_neg hov]
      rw [List.length_append, List.length_singleton] at hov ⊢
      omega

lemma foldl_getOrCreate_size (css : List (List Color)) :
    ∀ m : PaletteManager, m.palettes.length ≤ m.maxSize →
      ((css.foldl (fun acc cs => (getOrCreatePalette acc cs).1) m).palettes.length
        ≤ m.maxSize) := by
  induction css with
  | nil => intro m h; exact h
  | cons cs css ih =>
    intro m h
    rw [List.foldl_cons]
    have h1 := getOrCreatePalette_size m cs h
    have h2 := getOrCreatePalette_maxSize m cs
    have h3 := ih (getOrCreatePalette m cs).1 (by rw [h2]; exact h1)
    rw [h2] at h3
    exact h3

lemma getOrCreatePalette_evict (m : PaletteManager) (cs : List Color)
    (hmiss : findEntry m.palettes cs = none)
    (hfull : m.palettes.length = m.maxSize) (hpos : 0 < m.maxSize) :
    (getOrCreatePalette m cs).1.palettes
      = m.palettes.tail ++ [(m.nextPaletteId, cs)] := by
  unfold getOrCreatePalette
  rw [hmiss]
  have hov : m.maxSize < (m.palettes ++ [(m.nextPaletteId, cs)]).length := by
    rw [List.length_append]
    simp only [List.length_singleton]
    omega
  show (if m.maxSize < (m.palettes ++ [(m.nextPaletteId, cs)]).length
      then (m.palettes ++ [(m.nextPaletteId, cs)]).tail
      else m.palettes ++ [(m.nextPaletteId, cs)])
    = m.palettes.tail ++ [(m.nextPaletteId, cs)]
  rw [if_pos hov]
  cases hp : m.palettes with
  | nil =>
    rw [hp] at hfull
    simp at hfull
    omega
  | cons y ys => simp

lemma getOrCreatePalette_hit (m : PaletteManager) (cs : List Color)
    (e : PaletteEntry) (hhit : findEntry m.palettes cs = some e)
    (hkeys : (m.palettes.map (fun x => x.1)).Nodup) :
    (getOrCreatePalette m cs).1.palettes.getLast? = some e
    ∧ (getOrCreatePalette m cs).1.palettes.Perm m.palettes := by
  obtain ⟨hmem, hcs⟩ := findEntry_some hhit
  have hfk : findKey m.palettes e.1 = some e := findKey_of_mem_nodup hmem hkeys
  unfold getOrCreatePalette
  rw [hhit]
  constructor
  · show (moveToEnd m.palettes e.1).getLast? = some e
    simp only [moveToEnd, hfk]
    exact List.getLast?_concat _
  · show (moveToEnd m.palettes e.1).Perm m.palettes
    exact moveToEnd_perm hfk

/-- C5: across every sequence of `get_or_create` operations the Palette
Cache's size never exceeds its capacity; an insertion that would exceed
capacity evicts exactly the least-recently-touched (front) entry, the new
entry entering at the most-recently-used end; and a successful lookup
moves the matched entry to the most-recently-used (last) position,
permuting and not otherwise changing the cache contents. -/
theorem palette_lru_invariant (m : PaletteManager) (css : List (List Color))
    (hsz : m.palettes.length ≤ m.maxSize)
    (hkeys : (m.palettes.map (fun e => e.1)).Nodup) :
    ((css.foldl (fun acc cs => (getOrCreatePalette acc cs).1) m).palettes.length
        ≤ m.maxSize)
    ∧ (∀ cs, findEntry m.palettes cs = none → m.palettes.length = m.maxSize →
        0 < m.maxSize →
        (getOrCreatePalette m cs).1.palettes
          = m.palettes.tail ++ [(m.nextPaletteId, cs)])
    ∧ (∀ cs e, findEntry m.palettes cs = some e →
        (getOrCreatePalette m cs).1.palettes.getLast? = some e
        ∧ (getOrCreatePalette m cs).1.palettes.Perm m.palettes) :=
  ⟨foldl_getOrCreate_size css m hsz,
   fun cs hmiss hfull hpos => getOrCreatePalette_evict m cs hmiss hfull hpos,
   fun cs e hhit => getOrCreatePalette_hit m cs e hhit hkeys⟩

/-- Witness for C5 on a full two-entry cache of capacity 2: inserting a
third palette evicts the front entry, and looking up the front entry's
colors moves it to the back. -/
theorem palette_lru_invariant_witness :
    ((([[((2 : Nat), (2 : Nat), (2 : Nat))]] : List (List Color)).foldl
        (fun acc cs => (getOrCreatePalette acc cs).1)
        (PaletteManager.mk [(0, [(0, 0, 0)]), (1, [(1, 1, 1)])] 2 2)).palettes.length
      ≤ (PaletteManager.mk [(0, [(0, 0, 0)]), (1, [(1, 1, 1)])] 2 2).maxSize)
    ∧ ((getOrCreatePalette
          (PaletteManager.mk [(0, [(0, 0, 0)]), (1, [(1, 1, 1)])] 2 2)
          [(2, 2, 2)]).1.palettes
        = [(1, [(1, 1, 1)]), (2, [(2, 2, 2)])])
    ∧ ((getOrCreatePalette
          (PaletteManager.mk [(0, [(0, 0, 0)]), (1, [(1, 1, 1)])] 2 2)
          [(0, 0, 0)]).1.palettes.getLast? = some (0, [(0, 0, 0)])
        ∧ (getOrCreatePalette
            (PaletteManager.mk [(0, [(0, 0, 0)]), (1, [(1, 1, 1)])] 2 2)
            [(0, 0, 0)]).1.palettes.Perm
          (PaletteManager.mk [(0, [(0, 0, 0)]), (1, [(1, 1, 1)])] 2 2).palettes) := by
  have h := palette_lru_invariant
    (PaletteManager.mk [(0, [(0, 0, 0)]), (1, [(1, 1, 1)])] 2 2)
    [[(2, 2, 2)]] (by decide) (by decide)
  exact ⟨h.1,
    h.2.1 [(2, 2, 2)] (by decide) (by decide) (by decide),
    h.2.2 [(0, 0, 0)] (0, [(0, 0, 0)]) (by decide)⟩

lemma getOrCreate_second_hit (m1 : PaletteManager) (cs : List Color)
    (E : PaletteEntry) (hfe : findEntry m1.palettes cs = some E) :
    (getOrCreatePalette m1 cs).2.1 = E.1
    ∧ (getOrCreatePalette m1 cs).2.2.1 = false
    ∧ ∃ x ∈ (getOrCreatePalette m1 cs).1.palettes, x.1 = E.1 := by
  unfold getOrCreatePalette
  rw [hfe]
  refine ⟨rfl, rfl, ?_⟩
  show ∃ x ∈ moveToEnd m1.palettes E.1, x.1 = E.1
  exact moveToEnd_mem_key ⟨E, (findEntry_some hfe).1, rfl⟩

/-- C9: for any two element-for-element equal color lists, two
consecutive `get_or_create` calls return the same `palette_id`, the
second call returns `created = false`, and the entry with that id is
still in the cache afterwards (capacity at least 2; cache keys and color
lists duplicate-free as for any reachable `OrderedDict` state). -/
theorem palette_identity (m : PaletteManager) (cs1 cs2 : List Color)
    (heq : cs1 = cs2)
    (hkeys : (m.palettes.map (fun e => e.1)).Nodup)
    (hcols : (m.palettes.map (fun e => e.2)).Nodup)
    (hcap : 2 ≤ m.maxSize) :
    (getOrCreatePalette (getOrCreatePalette m cs1).1 cs2).2.1
      = (getOrCreatePalette m cs1).2.1
    ∧ (getOrCreatePalette (getOrCreatePalette m cs1).1 cs2).2.2.1 = false
    ∧ ∃ x ∈ (getOrCreatePalette (getOrCreatePalette m cs1).1 cs2).1.palettes,
        x.1 = (getOrCreatePalette m cs1).2.1 := by
  subst heq
  cases hfe : findEntry m.palettes cs1 with
  | some e =>
    obtain ⟨hmem, hcs⟩ := findEntry_some hfe
    have hfk : findKey m.palettes e.1 = some e :=
      findKey_of_mem_nodup hmem hkeys
    have hm1 : (getOrCreatePalette m cs1).1.palettes
        = eraseKey m.palettes e.1 ++ [e] := by
      unfold getOrCreatePalette
      rw [hfe]
      show moveToEnd m.palettes e.1 = _
      simp only [moveToEnd, hfk]
    have hp1 : (getOrCreatePalette m cs1).2.1 = e.1 := by
      unfold getOrCreatePalette
      rw [hfe]
    have hpre : ∀ x ∈ eraseKey m.palettes e.1, x.2 ≠ cs1 := by
      intro x hx hxcs
      have hxl := mem_of_mem_eraseKey hx
      have hxe : x = e :=
        eq_of_mem_colors_nodup hcols hxl hmem (by rw [hxcs, hcs])
      exact eraseKey_keys hkeys x hx (by rw [hxe])
    have hfe2 : findEntry (getOrCreatePalette m cs1).1.palettes cs1
        = some e := by
      rw [hm1, findEntry_append_of_none hpre, findEntry, if_pos hcs]
    have hsec := getOrCreate_second_hit _ cs1 e hfe2
    exact ⟨by rw [hsec.1, hp1], hsec.2.1, by rw [hp1]; exact hsec.2.2⟩
  | none =>
    have hmiss := findEntry_none hfe
    have hp1 : (getOrCreatePalette m cs1).2.1 = m.nextPaletteId := by
      unfold getOrCreatePalette
      rw [hfe]
    have hm1 : ∃ l0, (getOrCreatePalette m cs1).1.palettes
        = l0 ++ [(m.nextPaletteId, cs1)] ∧ ∀ x ∈ l0, x.2 ≠ cs1 := by
      unfold getOrCreatePalette
      rw [hfe]
      by_cases hov : m.maxSize
          < (m.palettes ++ [(m.nextPaletteId, cs1)]).length
      · refine ⟨m.palettes.tail, ?_, ?_⟩
        · show (if m.maxSize < (m.palettes ++ [(m.nextPaletteId, cs1)]).length
              then (m.palettes ++ [(m.nextPaletteId, cs1)]).tail
              else m.palettes ++ [(m.nextPaletteId, cs1)])
            = m.palettes.tail ++ [(m.nextPaletteId, cs1)]
          rw [if_pos hov]
          cases hp : m.palettes with
          | nil =>
            exfalso
            rw [hp, List.nil_append, List.length_singleton] at hov
            omega
          | cons y ys => simp
        · intro x hx
          exact hmiss x (List.mem_of_mem_tail hx)
      · refine ⟨m.palettes, ?_, hmiss⟩
        show (if m.maxSize < (m.palettes ++ [(m.nextPaletteId, cs1)]).length
            then (m.palettes ++ [(m.nextPaletteId, cs1)]).tail
            else m.palettes ++ [(m.nextPaletteId, cs1)])
          = m.palettes ++ [(m.nextPaletteId, cs1)]
        rw [if_neg hov]
    obtain ⟨l0, hm1eq, hl0⟩ := hm1
    have hfe2 : findEntry (getOrCreatePalette m cs1).1.palettes cs1
        = some (m.nextPaletteId, cs1) := by
      rw [hm1eq, findEntry_append_of_none hl0, findEntry, if_pos rfl]
    have hsec := getOrCreate_second_hit _ cs1 _ hfe2
    exact ⟨by rw [hsec.1, hp1], hsec.2.1, by rw [hp1]; exact hsec.2.2⟩

/-- Witness for C9: on a fresh cache (capacity 500 ≥ 2) and the color
list `[(0,0,0)]` twice, both calls return palette id 0, the second one
with `created = false`, and the entry survives. -/
theorem palette_identity_witness :
    (getOrCreatePalette
        (getOrCreatePalette PaletteManager.init
          [((0 : Nat), (0 : Nat), (0 : Nat))]).1
        [(0, 0, 0)]).2.1
      = (getOrCreatePalette PaletteManager.init [(0, 0, 0)]).2.1
    ∧ (getOrCreatePalette
        (getOrCreatePalette PaletteManager.init [(0, 0, 0)]).1
        [(0, 0, 0)]).2.2.1 = false
    ∧ ∃ x ∈ (getOrCreatePalette
          (getOrCreatePalette PaletteManager.init [(0, 0, 0)]).1
          [(0, 0, 0)]).1.palettes,
        x.1 = (getOrCreatePalette PaletteManager.init [(0, 0, 0)]).2.1 :=
  palette_identity PaletteManager.init [(0, 0, 0)] [(0, 0, 0)] rfl
    (by decide) (by decide) (by decide)
